import Mathlib

/-!
# Verification of dbt-meshify core logic

Shallow embedding of the core of `dbt-meshify`:

* `storage/yaml_editors.py` — `process_model_yml`, `DbtMeshModelYmlEditor.add_model_contract_to_yml`,
  `DbtMeshModelYmlEditor.add_model_version_to_yml`, `DbtMeshModelConstructor.add_model_version`;
* `storage/dbt_project_creator.py` — `DbtSubprojectCreator._get_subproject_boundary_models`,
  `DbtSubprojectCreator.initialize`, `DbtSubprojectCreator.update_child_refs`;
* `change.py` — `Operation`, `EntityType`, `Change`.

YAML documents are embedded as ordered association lists of string keys to
`YVal` values; Python `dict.update` / `dict.__setitem__` semantics (replace in
place when the key exists, append otherwise) are captured by `updKey`.
Fallible Python code (exceptions such as `KeyError` / `AttributeError` /
`TypeError`) is embedded with `Except String`.
-/

namespace DbtMeshify

/-- A YAML value as manipulated by the editors: null, booleans, integers,
strings, sequences, and mappings (ordered association lists). -/
inductive YVal where
  | null
  | b (v : Bool)
  | n (v : Int)
  | s (v : String)
  | list (xs : List YVal)
  | map (kvs : List (String × YVal))
  deriving Repr

abbrev KV := String × YVal

/-- Python `v is None`. -/
def YVal.isNull : YVal → Bool
  | .null => true
  | _ => false

/-- Python truthiness of a YAML value (`bool(v)`). -/
def YVal.truthy : YVal → Bool
  | .null => false
  | .b v => v
  | .n v => v ≠ 0
  | .s v => !v.data.isEmpty
  | .list xs => !xs.isEmpty
  | .map kvs => !kvs.isEmpty

/-- Python `str.startswith` (over the character sequence). -/
def pyStartsWith (s pre : String) : Bool := pre.data.isPrefixOf s.data

/-- Python `str.endswith` (over the character sequence). -/
def pyEndsWith (s suf : String) : Bool := suf.data.isSuffixOf s.data

/-- Python `str.split(sep)` for a single-character separator. -/
def splitChar (sep : Char) (s : String) : List String :=
  (s.data.foldr (fun c acc =>
    match acc with
    | [] => [[c]]
    | cur :: rest => if c = sep then [] :: (cur :: rest) else (c :: cur) :: rest) [[]]).map
    (fun cs => String.mk cs)

/-- Python `str.lower` for the ASCII identifiers used here. -/
def pyLower (s : String) : String :=
  String.mk (s.data.map (fun c => if 'A' ≤ c ∧ c ≤ 'Z' then Char.ofNat (c.toNat + 32) else c))

/-- First-match association-list lookup (`dict.get`, with unique keys). -/
def lookupK (d : List (String × α)) (k : String) : Option α :=
  match d with
  | [] => none
  | p :: rest => if p.1 = k then some p.2 else lookupK rest k

/-- Python `d[k] = v` on an (insertion-ordered) dict: replace the value in
place when the key exists, append the pair at the end otherwise. -/
def updKey (d : List (String × α)) (k : String) (v : α) : List (String × α) :=
  if d.any (fun p => p.1 = k) then d.map (fun p => if p.1 = k then (k, v) else p)
  else d ++ [(k, v)]

/-- Python `d.update(patch)`: apply `d[k] = v` for each pair of `patch` in order. -/
def odUpdate (d patch : List (String × α)) : List (String × α) :=
  patch.foldl (fun acc p => updKey acc p.1 p.2) d

/-- The fixed canonical key order used by `process_model_yml`
(`yaml_editors.py`, lines 14–25). -/
def canonicalModelKeys : List String :=
  ["name", "description", "latest_version", "access", "config", "meta", "columns", "versions"]

/-- `process_model_yml` (`yaml_editors.py`, lines 12–29):
`OrderedDict.fromkeys(canonical)` seeds every canonical key with `None`,
`.update(model_yml)` merges the entry's fields, and the final comprehension
drops every key whose value is `None`. -/
def process_model_yml (model_yml : List KV) : List KV :=
  (odUpdate (canonicalModelKeys.map (fun k => (k, YVal.null))) model_yml).filter
    (fun p => !p.2.isNull)

/-! ## Association-list lemmas -/

/-- The key sequence of an association list. -/
def keysOf (d : List (String × α)) : List String := d.map Prod.fst

theorem lookupK_eq_none_iff {d : List (String × α)} {k : String} :
    lookupK d k = none ↔ k ∉ keysOf d := by
  induction d with
  | nil => simp [lookupK, keysOf]
  | cons p rest ih =>
    by_cases h : p.1 = k
    · simp [lookupK, keysOf, h]
    · have h' : ¬ k = p.1 := fun hh => h hh.symm
      simp [lookupK, keysOf, h, h', ih]

theorem mem_of_lookupK_eq_some {d : List (String × α)} {k : String} {v : α}
    (h : lookupK d k = some v) : (k, v) ∈ d := by
  induction d with
  | nil => simp [lookupK] at h
  | cons p rest ih =>
    by_cases hk : p.1 = k
    · simp [lookupK, hk] at h
      subst hk; subst h; simp
    · simp [lookupK, hk] at h
      exact List.mem_cons_of_mem _ (ih h)

theorem lookupK_eq_some_of_mem {d : List (String × α)} {k : String} {v : α}
    (hnd : (keysOf d).Nodup) (h : (k, v) ∈ d) : lookupK d k = some v := by
  induction d with
  | nil => simp at h
  | cons p rest ih =>
    simp only [keysOf, List.map_cons, List.nodup_cons] at hnd
    rcases List.mem_cons.mp h with h | h
    · subst h; simp [lookupK]
    · have hne : p.1 ≠ k := by
        intro heq
        exact hnd.1 (heq ▸ (List.mem_map_of_mem Prod.fst h))
      simp [lookupK, hne]
      exact ih hnd.2 h

theorem lookupK_append_right {d₁ d₂ : List (String × α)} {k : String}
    (h : k ∉ keysOf d₁) : lookupK (d₁ ++ d₂) k = lookupK d₂ k := by
  induction d₁ with
  | nil => rfl
  | cons p rest ih =>
    have h1 : ¬ p.1 = k := by
      intro hh; exact h (by simp [keysOf, hh])
    have h2 : k ∉ keysOf rest := by
      intro hh; exact h (by simp [keysOf] at hh ⊢; right; exact hh)
    simp [lookupK, h1, ih h2]

theorem lookupK_append_of_ne {d : List (String × α)} {k k' : String} {v : α}
    (h : k' ≠ k) : lookupK (d ++ [(k, v)]) k' = lookupK d k' := by
  induction d with
  | nil => simp [lookupK, Ne.symm h]
  | cons p rest ih =>
    by_cases hp : p.1 = k' <;> simp [lookupK, hp, ih]

theorem updKey_of_mem {d : List (String × α)} {k : String} (v : α)
    (h : k ∈ keysOf d) :
    updKey d k v = d.map (fun p => if p.1 = k then (k, v) else p) := by
  have : d.any (fun p => p.1 = k) = true := by
    simp only [keysOf] at h
    rcases List.mem_map.mp h with ⟨p, hp, hpk⟩
    exact List.any_eq_true.mpr ⟨p, hp, by simp [hpk]⟩
  simp [updKey, this]

theorem updKey_of_not_mem {d : List (String × α)} {k : String} (v : α)
    (h : k ∉ keysOf d) : updKey d k v = d ++ [(k, v)] := by
  have : d.any (fun p => p.1 = k) = false := by
    simp only [List.any_eq_false, decide_eq_true_eq]
    intro p hp hpk
    exact h (by simpa [keysOf, hpk] using List.mem_map_of_mem Prod.fst hp)
  simp [updKey, this]

theorem map_replace_of_not_mem {d : List (String × α)} {k : String} (v : α)
    (h : k ∉ keysOf d) :
    d.map (fun p => if p.1 = k then (k, v) else p) = d := by
  have : ∀ p ∈ d, (if p.1 = k then (k, v) else p) = p := by
    intro p hp
    have : p.1 ≠ k := fun hh =>
      h (by simpa [keysOf, hh] using List.mem_map_of_mem Prod.fst hp)
    simp [this]
  simpa using List.map_congr_left this

theorem keysOf_updKey_of_mem {d : List (String × α)} {k : String} (v : α)
    (h : k ∈ keysOf d) : keysOf (updKey d k v) = keysOf d := by
  rw [updKey_of_mem v h]
  simp only [keysOf, List.map_map]
  apply List.map_congr_left
  intro p _
  by_cases hp : p.1 = k <;> simp [hp]

theorem keysOf_updKey_of_not_mem {d : List (String × α)} {k : String} (v : α)
    (h : k ∉ keysOf d) : keysOf (updKey d k v) = keysOf d ++ [k] := by
  rw [updKey_of_not_mem v h]
  simp [keysOf]

theorem keysOf_updKey_nodup {d : List (String × α)} {k : String} (v : α)
    (h : (keysOf d).Nodup) : (keysOf (updKey d k v)).Nodup := by
  by_cases hk : k ∈ keysOf d
  · rw [keysOf_updKey_of_mem v hk]; exact h
  · rw [keysOf_updKey_of_not_mem v hk]
    simpa [List.nodup_append] using ⟨h, hk⟩

theorem lookupK_map_replace_self {d : List (String × α)} {k : String} (v : α)
    (hk : k ∈ keysOf d) :
    lookupK (d.map (fun p => if p.1 = k then (k, v) else p)) k = some v := by
  induction d with
  | nil => simp [keysOf] at hk
  | cons p rest ih =>
    by_cases hp : p.1 = k
    · simp [lookupK, hp]
    · have hrest : k ∈ keysOf rest := by
        simp only [keysOf, List.map_cons, List.mem_cons] at hk
        rcases hk with hk | hk
        · exact absurd hk.symm hp
        · exact hk
      simp [lookupK, hp, ih hrest]

theorem lookupK_map_replace_of_ne {d : List (String × α)} {k k' : String} (v : α)
    (h : k' ≠ k) :
    lookupK (d.map (fun p => if p.1 = k then (k, v) else p)) k' = lookupK d k' := by
  induction d with
  | nil => rfl
  | cons p rest ih =>
    by_cases hp : p.1 = k
    · have hne : ¬ k = k' := Ne.symm h
      have hne' : ¬ p.1 = k' := by rw [hp]; exact hne
      simp [lookupK, hp, hne, hne', ih]
    · by_cases hp' : p.1 = k'
      · simp only [List.map_cons, if_neg hp]
        simp [lookupK, hp']
      · simp only [List.map_cons, if_neg hp]
        simp [lookupK, hp', ih]

theorem lookupK_updKey_self {d : List (String × α)} {k : String} (v : α) :
    lookupK (updKey d k v) k = some v := by
  by_cases hk : k ∈ keysOf d
  · rw [updKey_of_mem v hk]
    exact lookupK_map_replace_self v hk
  · rw [updKey_of_not_mem v hk, lookupK_append_right hk]
    simp [lookupK]

theorem lookupK_updKey_of_ne {d : List (String × α)} {k k' : String} (v : α)
    (h : k' ≠ k) : lookupK (updKey d k v) k' = lookupK d k' := by
  by_cases hk : k ∈ keysOf d
  · rw [updKey_of_mem v hk]
    exact lookupK_map_replace_of_ne v h
  · rw [updKey_of_not_mem v hk]
    exact lookupK_append_of_ne h

theorem mem_updKey_of_ne {d : List (String × α)} {k k' : String} {v w : α}
    (h : k' ≠ k) : (k', w) ∈ updKey d k v ↔ (k', w) ∈ d := by
  by_cases hk : k ∈ keysOf d
  · rw [updKey_of_mem v hk]
    constructor
    · intro hm
      rcases List.mem_map.mp hm with ⟨p, hp, hpe⟩
      by_cases hpk : p.1 = k
      · rw [if_pos hpk] at hpe
        injection hpe with h1 h2
        exact absurd h1 (Ne.symm h)
      · rw [if_neg hpk] at hpe
        exact hpe ▸ hp
    · intro hm
      refine List.mem_map.mpr ⟨(k', w), hm, ?_⟩
      simp [h]
  · rw [updKey_of_not_mem v hk]
    simp [h]

/-! ## Characterization of `process_model_yml` -/

/-- The canonical keys, each with the value the patch gives it (or `null`). -/
def canonFull (patch : List KV) : List KV :=
  canonicalModelKeys.map (fun k => (k, (lookupK patch k).getD YVal.null))

/-- The patch's fields whose keys are outside the canonical list. -/
def extraRaw (patch : List KV) : List KV :=
  patch.filter (fun p => !canonicalModelKeys.contains p.1)

theorem odUpdate_base_spec (patch : List KV) (h : (keysOf patch).Nodup) :
    odUpdate (canonicalModelKeys.map (fun k => (k, YVal.null))) patch =
      canonFull patch ++ extraRaw patch := by
  induction patch using List.reverseRecOn with
  | nil => rfl
  | append_singleton patch p ih =>
    obtain ⟨k, v⟩ := p
    have hsplit : keysOf (patch ++ [(k, v)]) = keysOf patch ++ [k] := by
      simp [keysOf]
    rw [hsplit] at h
    have hk : k ∉ keysOf patch := by
      intro hm
      exact (List.disjoint_of_nodup_append h) hm (by simp)
    have h' : (keysOf patch).Nodup := h.of_append_left
    have hfold : odUpdate (canonicalModelKeys.map (fun k => (k, YVal.null)))
        (patch ++ [(k, v)]) =
        updKey (odUpdate (canonicalModelKeys.map (fun k => (k, YVal.null))) patch) k v := by
      simp [odUpdate]
    rw [hfold, ih h']
    by_cases hc : canonicalModelKeys.contains k
    · have hkc : k ∈ canonicalModelKeys := by simpa using hc
      have hmemc : k ∈ keysOf (canonFull patch) := by
        simp only [canonFull, keysOf, List.map_map]
        simpa using hkc
      have hmem : k ∈ keysOf (canonFull patch ++ extraRaw patch) := by
        simp only [keysOf, List.map_append, List.mem_append]
        exact Or.inl hmemc
      rw [updKey_of_mem v hmem, List.map_append]
      have hextra_keys : k ∉ keysOf (extraRaw patch) := by
        intro hm
        refine hk ?_
        simp only [extraRaw, keysOf] at hm
        rcases List.mem_map.mp hm with ⟨q, hq, hqe⟩
        exact hqe ▸ List.mem_map_of_mem Prod.fst (List.mem_of_mem_filter hq)
      rw [map_replace_of_not_mem v hextra_keys]
      have hcanon : (canonFull patch).map (fun p => if p.1 = k then (k, v) else p) =
          canonFull (patch ++ [(k, v)]) := by
        simp only [canonFull, List.map_map]
        apply List.map_congr_left
        intro k' _
        simp only [Function.comp_apply]
        by_cases hk' : k' = k
        · subst hk'
          rw [lookupK_append_right hk]
          simp [lookupK]
        · rw [lookupK_append_of_ne hk']
          simp [hk']
      have hextra : extraRaw (patch ++ [(k, v)]) = extraRaw patch := by
        simp [extraRaw, List.filter_append, hkc]
      rw [hcanon, hextra]
    · have hknc : k ∉ canonicalModelKeys := by simpa using hc
      have hnotmem : k ∉ keysOf (canonFull patch ++ extraRaw patch) := by
        simp only [keysOf, List.map_append, List.mem_append]
        rintro (hm | hm)
        · simp only [canonFull, keysOf, List.map_map] at hm
          exact hknc (by simpa using hm)
        · refine hk ?_
          simp only [extraRaw, keysOf] at hm
          rcases List.mem_map.mp hm with ⟨q, hq, hqe⟩
          exact hqe ▸ List.mem_map_of_mem Prod.fst (List.mem_of_mem_filter hq)
      rw [updKey_of_not_mem v hnotmem]
      have hcanon : canonFull (patch ++ [(k, v)]) = canonFull patch := by
        simp only [canonFull]
        apply List.map_congr_left
        intro k' hk'
        have hne : k' ≠ k := by
          intro hh
          exact hknc (hh ▸ hk')
        rw [lookupK_append_of_ne hne]
      have hextra : extraRaw (patch ++ [(k, v)]) = extraRaw patch ++ [(k, v)] := by
        simp [extraRaw, List.filter_append, hknc]
      rw [hcanon, hextra, List.append_assoc]

end DbtMeshify

namespace DbtMeshify

/-- The non-null canonical fields of a patch, in canonical order. -/
def canonPart (patch : List KV) : List KV :=
  canonicalModelKeys.filterMap (fun k =>
    match lookupK patch k with
    | some v => if v.isNull then none else some (k, v)
    | none => none)

/-- The non-null fields of a patch whose keys are outside the canonical list,
in patch order. -/
def extraPart (patch : List KV) : List KV :=
  patch.filter (fun p => !canonicalModelKeys.contains p.1 && !p.2.isNull)

theorem filter_canonFull (patch : List KV) :
    (canonFull patch).filter (fun p => !p.2.isNull) = canonPart patch := by
  simp only [canonFull, canonPart]
  induction canonicalModelKeys with
  | nil => rfl
  | cons k ks ih =>
    simp only [List.map_cons, List.filterMap_cons]
    cases hlk : lookupK patch k with
    | none => simpa [hlk, YVal.isNull] using ih
    | some v =>
      cases hv : v.isNull
      · simpa [hlk, hv] using ih
      · simpa [hlk, hv] using ih

theorem process_model_yml_spec (patch : List KV) (h : (keysOf patch).Nodup) :
    process_model_yml patch = canonPart patch ++ extraPart patch := by
  unfold process_model_yml
  rw [odUpdate_base_spec patch h, List.filter_append, filter_canonFull]
  congr 1
  simp only [extraRaw, extraPart, List.filter_filter]
  congr 1
  funext a
  rw [Bool.and_comm]

/-- The keys of `canonPart` form a sublist of the canonical key list. -/
theorem keysOf_canonPart_sublist (patch : List KV) :
    (keysOf (canonPart patch)).Sublist canonicalModelKeys := by
  simp only [canonPart, keysOf]
  induction canonicalModelKeys with
  | nil => simp
  | cons k ks ih =>
    simp only [List.filterMap_cons]
    cases hlk : lookupK patch k with
    | none => exact ih.cons k
    | some v =>
      cases hv : v.isNull
      · simpa [hv] using ih.cons₂ k
      · simpa [hv] using ih.cons k

theorem keysOf_canonPart_mem {patch : List KV} {k : String}
    (h : k ∈ keysOf (canonPart patch)) : k ∈ canonicalModelKeys :=
  (keysOf_canonPart_sublist patch).mem h

theorem mem_canonPart_iff {patch : List KV} {k : String} {v : YVal} :
    (k, v) ∈ canonPart patch ↔
      k ∈ canonicalModelKeys ∧ lookupK patch k = some v ∧ v.isNull = false := by
  simp only [canonPart, List.mem_filterMap]
  constructor
  · rintro ⟨k', hk', hmatch⟩
    cases hlk : lookupK patch k' with
    | none => simp [hlk] at hmatch
    | some w =>
      cases hw : w.isNull
      · simp only [hlk, hw] at hmatch
        simp only [Bool.false_eq_true, if_false] at hmatch
        injection hmatch with h1
        cases h1
        exact ⟨hk', hlk, hw⟩
      · simp [hlk, hw] at hmatch
  · rintro ⟨hk, hlk, hv⟩
    exact ⟨k, hk, by simp [hlk, hv]⟩

theorem mem_extraPart_iff {patch : List KV} {k : String} {v : YVal} :
    (k, v) ∈ extraPart patch ↔
      (k, v) ∈ patch ∧ k ∉ canonicalModelKeys ∧ v.isNull = false := by
  simp only [extraPart, List.mem_filter, Bool.and_eq_true, Bool.not_eq_true']
  constructor
  · rintro ⟨hm, hc, hv⟩
    exact ⟨hm, by simpa using hc, hv⟩
  · rintro ⟨hm, hc, hv⟩
    exact ⟨hm, ⟨by simpa using hc, hv⟩⟩

/-- Membership in the processed entry: exactly the non-null fields survive
(for entries with unique keys). -/
theorem mem_process_model_yml {patch : List KV} (h : (keysOf patch).Nodup)
    {k : String} {v : YVal} (hv : v.isNull = false) :
    (k, v) ∈ process_model_yml patch ↔ (k, v) ∈ patch := by
  rw [process_model_yml_spec patch h, List.mem_append, mem_canonPart_iff, mem_extraPart_iff]
  constructor
  · rintro (⟨_, hlk, _⟩ | ⟨hm, _, _⟩)
    · exact mem_of_lookupK_eq_some hlk
    · exact hm
  · intro hm
    by_cases hc : k ∈ canonicalModelKeys
    · exact Or.inl ⟨hc, lookupK_eq_some_of_mem h hm, hv⟩
    · exact Or.inr ⟨hm, hc, hv⟩

/-- The processed entry again has unique keys. -/
theorem keysOf_process_model_yml_nodup (patch : List KV) (h : (keysOf patch).Nodup) :
    (keysOf (process_model_yml patch)).Nodup := by
  rw [process_model_yml_spec patch h]
  have h1 : (keysOf (canonPart patch)).Nodup :=
    (keysOf_canonPart_sublist patch).nodup (by decide)
  have h2 : (keysOf (extraPart patch)).Nodup := by
    have : (keysOf (extraPart patch)).Sublist (keysOf patch) := by
      simp only [extraPart, keysOf]
      exact (List.filter_sublist patch).map Prod.fst
    exact this.nodup h
  have hdisj : ∀ k ∈ keysOf (canonPart patch), k ∉ keysOf (extraPart patch) := by
    intro k hk hm
    simp only [extraPart, keysOf] at hm
    rcases List.mem_map.mp hm with ⟨q, hq, hqe⟩
    have := List.of_mem_filter hq
    simp only [Bool.and_eq_true, Bool.not_eq_true'] at this
    have hqnc : q.1 ∉ canonicalModelKeys := by simpa using this.1
    exact hqnc (hqe ▸ keysOf_canonPart_mem hk)
  simp only [keysOf, List.map_append] at *
  exact List.Nodup.append h1 h2 (List.disjoint_left.mpr hdisj)

/-- Lookup in the processed entry. -/
theorem lookupK_process_model_yml (patch : List KV) (h : (keysOf patch).Nodup)
    (k : String) {v : YVal} (hv : v.isNull = false)
    (hm : (k, v) ∈ patch) :
    lookupK (process_model_yml patch) k = some v :=
  lookupK_eq_some_of_mem (keysOf_process_model_yml_nodup patch h)
    ((mem_process_model_yml h hv).mpr hm)

end DbtMeshify

namespace DbtMeshify

/-! ## Document-level plumbing shared by the editors (`yaml_editors.py`) -/

/-- `{model["name"]: model for model in full_yml_dict["models"]} if full_yml_dict else {}`
(`yaml_editors.py`, lines 87–89 and 129–131): a name-keyed insertion-ordered
dict of the document's model entries.  An empty document is falsy and gives
`{}`; otherwise a missing `models` key raises `KeyError`, and a non-list value
or a malformed entry raises. -/
def modelsDict (full : List KV) : Except String (List (String × List KV)) :=
  if full.isEmpty then .ok []
  else
    match lookupK full "models" with
    | some (.list entries) =>
      entries.foldlM (fun acc e =>
        match e with
        | .map fields =>
          match lookupK fields "name" with
          | some (.s nm) => .ok (updKey acc nm fields)
          | some _ => .error "TypeError: model name is not a string"
          | none => .error "KeyError: name"
        | _ => .error "TypeError: model entry is not a mapping") []
    | some _ => .error "TypeError: models value is not a list"
    | none => .error "KeyError: models"

/-- `full_yml_dict["models"] = list(models.values())`
(`yaml_editors.py`, lines 116 and 163). -/
def writeModels (full : List KV) (models : List (String × List KV)) : List KV :=
  updKey full "models" (.list (models.map (fun p => YVal.map p.2)))

/-- `models.get(model_name) or skeleton`: a missing or empty (falsy) stored
entry is replaced by the skeleton. -/
def getOrSkeleton (models : List (String × List KV)) (model_name : String)
    (skel : List KV) : List KV :=
  match lookupK models model_name with
  | some fields => if fields.isEmpty then skel else fields
  | none => skel

/-! ## Contract stamping (`add_model_contract_to_yml`) -/

/-- `model_yml.get("columns", [])` (`yaml_editors.py`, line 93): default `[]`
only when the key is missing; a present non-list value fails downstream. -/
def getColumns (model_yml : List KV) : Except String (List YVal) :=
  match lookupK model_yml "columns" with
  | some (.list xs) => .ok xs
  | some _ => .error "TypeError: columns is not a list of mappings"
  | none => .ok []

/-- A fallible list comprehension: map `f` over the list, propagating the
first raised exception. -/
def mapME (f : α → Except ε β) : List α → Except ε (List β)
  | [] => .ok []
  | x :: xs => do
    let y ← f x
    let ys ← mapME f xs
    .ok (y :: ys)

/-- One step of the column-typing comprehension (`yaml_editors.py`, lines 96–99):
`{**yml_col, "data_type": catalog_cols.get(yml_col.get("name")).type.lower()}`.
The catalog lookup is case-sensitive; on a miss `.get` yields `None` and the
`.type` access raises `AttributeError`. -/
def typeYmlCol (catalog : List (String × String)) (col : YVal) : Except String YVal :=
  match col with
  | .map fields =>
    match lookupK fields "name" with
    | some (.s nm) =>
      match lookupK catalog nm with
      | some ty => .ok (.map (updKey fields "data_type" (.s (pyLower ty))))
      | none =>
        .error ("AttributeError: NoneType object has no attribute type (column "
          ++ nm ++ " missing from catalog)")
    | _ => .error "AttributeError: column has no usable name"
  | _ => .error "AttributeError: column is not a mapping"

/-- `col.get("name").lower()` for the declared-name list
(`yaml_editors.py`, line 101). -/
def colNameLower (col : YVal) : Except String String :=
  match col with
  | .map fields =>
    match lookupK fields "name" with
    | some (.s nm) => .ok (pyLower nm)
    | _ => .error "AttributeError: column has no usable name"
  | _ => .error "AttributeError: column is not a mapping"

/-- The append loop (`yaml_editors.py`, lines 102–104): every catalog column
whose lower-cased name is not among the declared lower-cased names is appended,
in catalog (observation) order, with lower-cased name and type. -/
def appendMissingCols (catalog : List (String × String)) (yml_col_names : List String)
    (cols : List YVal) : List YVal :=
  catalog.foldl (fun acc p =>
    if pyLower p.1 ∈ yml_col_names then acc
    else acc ++ [.map [("name", .s (pyLower p.1)), ("data_type", .s (pyLower p.2))]]) cols

/-- The skeleton `{"name": model_name, "columns": [], "config": {}}`
(`yaml_editors.py`, line 90). -/
def contractSkeleton (model_name : String) : List KV :=
  [("name", .s model_name), ("columns", .list []), ("config", .map [])]

/-- The per-entry body of `add_model_contract_to_yml`
(`yaml_editors.py`, lines 90–113): type the declared columns from the catalog,
append catalog columns whose lower-cased names are not yet declared, then
replace the entry's `config` with `{"contract": {"enforced": True}}` and
canonicalize with `process_model_yml`. -/
def addContractEntry (model_yml : List KV) (catalog : List (String × String)) :
    Except String (List KV) := do
  let yml_cols0 ← getColumns model_yml
  let yml_cols ← mapME (typeYmlCol catalog) yml_cols0
  let yml_col_names ← mapME colNameLower yml_cols
  let final_cols := appendMissingCols catalog yml_col_names yml_cols
  let m1 := updKey model_yml "columns" (.list final_cols)
  let m2 := updKey m1 "config" (.map [("contract", .map [("enforced", .b true)])])
  .ok (process_model_yml m2)

/-- `DbtMeshModelYmlEditor.add_model_contract_to_yml`
(`yaml_editors.py`, lines 79–117).  `catalog` is the `model_catalog.columns`
mapping, as ordered name → type pairs. -/
def add_model_contract_to_yml (model_name : String) (catalog : List (String × String))
    (full_yml_dict : List KV) : Except String (List KV) := do
  let models ← modelsDict full_yml_dict
  let model_yml := getOrSkeleton models model_name (contractSkeleton model_name)
  let processed ← addContractEntry model_yml catalog
  .ok (writeModels full_yml_dict (updKey models model_name processed))

/-! ## Version append (`add_model_version_to_yml`) -/

/-- `model_yml.get("versions") or []` (`yaml_editors.py`, line 138): a missing,
`None`, or otherwise falsy value gives `[]`; a truthy non-list value cannot be
`.append`ed to and raises. -/
def getVersionsList (model_yml : List KV) : Except String (List YVal) :=
  match lookupK model_yml "versions" with
  | none => .ok []
  | some (.list xs) => .ok xs
  | some v => if v.truthy then .error "AttributeError: versions is not a list" else .ok []

/-- `model_yml.get("latest_version") or 0` (`yaml_editors.py`, line 139). -/
def getLatestVersion (model_yml : List KV) : Except String Int :=
  match lookupK model_yml "latest_version" with
  | none => .ok 0
  | some (.n k) => .ok k
  | some v =>
    if v.truthy then .error "TypeError: latest_version is not an integer" else .ok 0

/-- The skeleton `{"name": model_name, "latest_version": 0, "versions": []}`
(`yaml_editors.py`, lines 132–136). -/
def versionSkeleton (model_name : String) : List KV :=
  [("name", .s model_name), ("latest_version", .n 0), ("versions", .list [])]

/-- The per-entry body of `add_model_version_to_yml`
(`yaml_editors.py`, lines 137–161): empty sequence → descriptor `{v: 1}` and
the counter is incremented; otherwise descriptor `{v: latest+1}`, with the
counter incremented exactly when `prerelease` is false.  A truthy `defined_in`
is recorded on the descriptor.  The updated entry is canonicalized with
`process_model_yml`. -/
def addVersionEntry (model_yml : List KV) (prerelease : Bool)
    (defined_in : Option String) : Except String (List KV) := do
  let versions_list ← getVersionsList model_yml
  let latest_version ← getLatestVersion model_yml
  let vd :=
    if versions_list.isEmpty then ([("v", YVal.n 1)], latest_version + 1)
    else if prerelease then ([("v", YVal.n (latest_version + 1))], latest_version)
    else ([("v", YVal.n (latest_version + 1))], latest_version + 1)
  let version_dict :=
    match defined_in with
    | some d => if d.data.isEmpty then vd.1 else vd.1 ++ [("defined_in", YVal.s d)]
    | none => vd.1
  let m1 := updKey model_yml "versions" (.list (versions_list ++ [.map version_dict]))
  let m2 := updKey m1 "latest_version" (.n vd.2)
  .ok (process_model_yml m2)

/-- `DbtMeshModelYmlEditor.add_model_version_to_yml`
(`yaml_editors.py`, lines 119–164). -/
def add_model_version_to_yml (model_name : String) (full_yml_dict : List KV)
    (prerelease : Bool) (defined_in : Option String) : Except String (List KV) := do
  let models ← modelsDict full_yml_dict
  let model_yml := getOrSkeleton models model_name (versionSkeleton model_name)
  let processed ← addVersionEntry model_yml prerelease defined_in
  .ok (writeModels full_yml_dict (updKey models model_name processed))

end DbtMeshify

namespace DbtMeshify

/-! ## Graph boundary resolution (`dbt_project_creator.py`, lines 30–46) -/

/-- Modelled from the spec: `ResourceGrouper.identify_interface`
(`utilities/grouper.py`) is not part of the sources under verification; §4.1 of
the specification defines it: "for every edge (u, v) in the graph, if exactly
one endpoint belongs to `selection`, the endpoint *inside* `selection` is added
to the interface candidate set". -/
def identify_interface (graph : List (String × String)) (selected : Finset String) :
    Finset String :=
  (graph.filterMap (fun e =>
    if e.1 ∈ selected ∧ e.2 ∉ selected then some e.1
    else if e.2 ∈ selected ∧ e.1 ∉ selected then some e.2
    else none)).toFinset

/-- `DbtSubprojectCreator._get_subproject_boundary_models`
(`dbt_project_creator.py`, lines 30–46): drop `source`-prefixed identifiers
from the selected resources, compute the interface, then keep only identifiers
that start with `model` and whose second dot-separated segment equals the
parent project's name. -/
def get_subproject_boundary_models (graph : List (String × String))
    (resources : Finset String) (parent_project_name : String) : Finset String :=
  let nodes := resources.filter (fun x => ¬ pyStartsWith x "source")
  let interface := identify_interface graph nodes
  interface.filter (fun x =>
    pyStartsWith x "model" ∧ (splitChar '.' x)[1]? = some parent_project_name)

/-! ## Version file operations (`yaml_editors.py`, lines 228–253) -/

/-- The fields of a manifest model node consulted by
`DbtMeshModelConstructor.add_model_version`. -/
structure ModelNode where
  name : String
  latest_version : Option Int
  language : String
  original_file_path : String
  raw_code : String
  deriving Repr, DecidableEq

/-- A physical file operation issued through the file manager / `Path.rename`. -/
inductive FileOp where
  | write (path : String) (contents : String)
  | rename (src dst : String)
  deriving Repr, DecidableEq

/-- Python `PurePath.root`: `"/"` for an absolute path, `""` otherwise.  (The
source consults `model_path.root`, the *filesystem root* of the path — not the
file name.) -/
def pathRoot (p : String) : String := if pyStartsWith p "/" then "/" else ""

/-- Python `PurePath.parent` for the relative paths used here. -/
def dirname (p : String) : String :=
  let parts := splitChar '/' p
  if parts.length ≤ 1 then "." else String.intercalate "/" parts.dropLast

/-- Python `parent / name`. -/
def joinPath (d f : String) : String := if d = "." then f else d ++ "/" ++ f

/-- Python truthiness of `Optional[int]` (`if not self.model_node.latest_version`). -/
def truthyOptInt : Option Int → Bool
  | none => false
  | some k => k ≠ 0

/-- The physical file consequence of `DbtMeshModelConstructor.add_model_version`
(`yaml_editors.py`, lines 228–253), as the ordered file operations it issues:
if the node has no (or a falsy) `latest_version`, rename the original file to
the next version's file name; otherwise write the new version file with the
node's code and, when `model_path.root` does not end in
`_v{latest_version}.{language}`, rename the original file to the last
version's file name. -/
def add_model_version_file_ops (node : ModelNode) (defined_in : Option String) :
    List FileOp :=
  let latest_version : Int := node.latest_version.getD 0
  let last_version_file_name :=
    node.name ++ "_v" ++ toString latest_version ++ "." ++ node.language
  let next_version_file_name :=
    match defined_in with
    | some d =>
      if d.isEmpty then
        node.name ++ "_v" ++ toString (latest_version + 1) ++ "." ++ node.language
      else d ++ "." ++ node.language
    | none => node.name ++ "_v" ++ toString (latest_version + 1) ++ "." ++ node.language
  let model_folder := dirname node.original_file_path
  let next_version_path := joinPath model_folder next_version_file_name
  let last_version_path := joinPath model_folder last_version_file_name
  if ¬ truthyOptInt node.latest_version then
    [.rename node.original_file_path next_version_path]
  else
    [.write next_version_path node.raw_code] ++
      (if ¬ pyEndsWith (pathRoot node.original_file_path)
          ("_v" ++ toString latest_version ++ "." ++ node.language) then
        [.rename node.original_file_path last_version_path]
      else [])

/-! ## The change ledger (`change.py`) -/

/-- `Operation` (`change.py`, lines 9–14). -/
inductive Operation where
  | add
  | update
  | remove
  deriving Repr, DecidableEq

/-- `EntityType` (`change.py`, lines 17–37). -/
inductive EntityType where
  | Model
  | Analysis
  | Test
  | Snapshot
  | Operation
  | Seed
  | RPCCall
  | SqlOperation
  | Documentation
  | Source
  | Macro
  | Exposure
  | Metric
  | Group
  | SemanticModel
  | Project
  | Code
  deriving Repr, DecidableEq

/-- `Change` (`change.py`, lines 45–53). -/
structure Change where
  operation : Operation
  entity_type : EntityType
  identifier : String
  path : String
  data : List KV
  deriving Repr

/-! ## Relocation orchestration (`dbt_project_creator.py`, lines 74–121) -/

/-- The fields of a manifest node consulted by `DbtSubprojectCreator`. -/
structure RNode where
  unique_id : String
  name : String
  resource_type : String
  original_file_path : String
  depends_on : List String
  deriving Repr, DecidableEq

/-- A mutating action performed by the orchestrator through its collaborators
(the meshify constructors and the file manager, which live outside the sources
under verification and are represented abstractly by the action performed). -/
inductive Event where
  | addContract (uid : String)
  | addAccess (uid : String)
  | updateRefs (child_uid : String) (model_name : String) (project_name : String)
  | moveFile (path : String)
  | copyFile (path : String)
  | moveYmlEntry (uid : String)
  | writeProjectFile
  | copyPackagesYml
  deriving Repr, DecidableEq

/-- `DbtSubProject.get_manifest_node`: look a unique id up in the manifest. -/
def get_manifest_node (manifest : List RNode) (uid : String) : Option RNode :=
  manifest.find? (fun n => n.unique_id == uid)

/-- The loop of `DbtSubprojectCreator.update_child_refs`
(`dbt_project_creator.py`, lines 80–89) over the downstream model ids:
an unresolved id raises `KeyError`, otherwise `update_model_refs` is invoked
for the child. -/
def update_child_refs_loop (manifest : List RNode) (project_name : String)
    (resource_name : String) : List String → List Event × Option String
  | [] => ([], none)
  | m :: rest =>
    match get_manifest_node manifest m with
    | none => ([], some ("Resource " ++ m ++ " not found in manifest"))
    | some _ =>
      let r := update_child_refs_loop manifest project_name resource_name rest
      (Event.updateRefs m resource_name project_name :: r.1, r.2)

/-- `DbtSubprojectCreator.update_child_refs` (`dbt_project_creator.py`,
lines 74–89): every manifest model whose dependency list names the resource is
rewritten to the subproject-qualified reference form. -/
def update_child_refs (manifest : List RNode) (project_name : String)
    (resource : RNode) : List Event × Option String :=
  let downstream_models := (manifest.filter (fun n =>
    n.resource_type = "model" ∧ resource.unique_id ∈ n.depends_on)).map
      (fun n => n.unique_id)
  update_child_refs_loop manifest project_name resource.name downstream_models

/-- The per-resource body of `DbtSubprojectCreator.initialize`
(`dbt_project_creator.py`, lines 102–117): four-segment (generic) tests are
skipped; boundary models get contract, public access and child-reference
rewrites before the move; code-bearing kinds move file and yml entry; macros
are copied; all other kinds move only their yml entry. -/
def processResource (manifest : List RNode) (boundary : List String)
    (project_name : String) (resource : RNode) : List Event × Option String :=
  if resource.resource_type ∈ ["model", "test", "snapshot", "seed"] then
    if resource.resource_type = "test" ∧ (splitChar '.' resource.unique_id).length = 4 then
      ([], none)
    else
      let pre :=
        if resource.unique_id ∈ boundary then
          let r := update_child_refs manifest project_name resource
          ([Event.addContract resource.unique_id, Event.addAccess resource.unique_id]
            ++ r.1, r.2)
        else ([], none)
      match pre.2 with
      | some e => (pre.1, some e)
      | none =>
        (pre.1 ++ [Event.moveFile resource.original_file_path,
          Event.moveYmlEntry resource.unique_id], none)
  else if resource.resource_type = "macro" then
    ([Event.copyFile resource.original_file_path], none)
  else
    ([Event.moveYmlEntry resource.unique_id], none)

/-- The outcome of a relocation run: the mutating actions performed in order,
the `Change` records constructed along the way, and the error that aborted the
run (if any). -/
structure RunResult where
  ops : List Event
  changes : List Change
  err : Option String
  deriving Repr

/-- The main loop of `DbtSubprojectCreator.initialize`
(`dbt_project_creator.py`, lines 94–117) over the iteration order of
`subproject.resources | subproject.custom_macros`: resolve each id (an
unresolved id raises `KeyError` naming it, aborting the run), then process the
resource.  No branch of the loop constructs a `Change` record. -/
def initLoop (manifest : List RNode) (boundary : List String) (project_name : String) :
    List String → RunResult
  | [] => ⟨[], [], none⟩
  | uid :: rest =>
    match get_manifest_node manifest uid with
    | none => ⟨[], [], some ("Resource " ++ uid ++ " not found in manifest")⟩
    | some r =>
      match (processResource manifest boundary project_name r).2 with
      | some e => ⟨(processResource manifest boundary project_name r).1, [], some e⟩
      | none =>
        ⟨(processResource manifest boundary project_name r).1 ++
            (initLoop manifest boundary project_name rest).ops,
          (initLoop manifest boundary project_name rest).changes,
          (initLoop manifest boundary project_name rest).err⟩

/-- The inputs of a relocation run consulted by `DbtSubprojectCreator.initialize`. -/
structure SubprojectConfig where
  manifest : List RNode
  resource_order : List String
  boundary : List String
  project_name : String
  deriving Repr

/-- `DbtSubprojectCreator.initialize` (`dbt_project_creator.py`, lines 91–121):
run the per-resource loop, then (only on success) write the subproject's
`dbt_project.yml` and copy `packages.yml`. -/
def initRun (cfg : SubprojectConfig) : RunResult :=
  match (initLoop cfg.manifest cfg.boundary cfg.project_name cfg.resource_order).err with
  | some _ => initLoop cfg.manifest cfg.boundary cfg.project_name cfg.resource_order
  | none =>
    ⟨(initLoop cfg.manifest cfg.boundary cfg.project_name cfg.resource_order).ops ++
        [Event.writeProjectFile, Event.copyPackagesYml],
      (initLoop cfg.manifest cfg.boundary cfg.project_name cfg.resource_order).changes,
      none⟩

end DbtMeshify

namespace DbtMeshify

/-! ## Helper lemmas for the editors and the orchestrator -/

theorem mapME_error_of_mem {α β ε : Type} {f : α → Except ε β} {xs : List α} {x : α} {e : ε}
    (hx : x ∈ xs) (hf : f x = .error e) : ∃ e', mapME f xs = .error e' := by
  induction xs with
  | nil => simp at hx
  | cons y ys ih =>
    rcases List.mem_cons.mp hx with h | h
    · subst h
      refine ⟨e, ?_⟩
      show (f x >>= fun y => mapME f ys >>= fun ys' => pure (y :: ys')) = Except.error e
      rw [hf]; rfl
    · cases hy : f y with
      | error e2 =>
        refine ⟨e2, ?_⟩
        show (f y >>= fun y => mapME f ys >>= fun ys' => pure (y :: ys')) = Except.error e2
        rw [hy]; rfl
      | ok b =>
        obtain ⟨e', he'⟩ := ih h
        refine ⟨e', ?_⟩
        show (f y >>= fun y => mapME f ys >>= fun ys' => pure (y :: ys')) = Except.error e'
        rw [hy]
        show (mapME f ys >>= fun ys' => pure (b :: ys')) = Except.error e'
        rw [he']; rfl

/-- A successful `addContractEntry` run names its intermediate results: the
declared columns resolve, every declared column types against the catalog, and
the result is the canonicalized entry with the final columns and the enforced
contract config. -/
theorem addContractEntry_ok_shape (model_yml : List KV) (catalog : List (String × String))
    (r : List KV) (hok : addContractEntry model_yml catalog = .ok r) :
    ∃ cols0 yml_cols names,
      getColumns model_yml = .ok cols0 ∧
      mapME (typeYmlCol catalog) cols0 = .ok yml_cols ∧
      mapME colNameLower yml_cols = .ok names ∧
      r = process_model_yml (updKey (updKey model_yml "columns"
            (.list (appendMissingCols catalog names yml_cols))) "config"
            (.map [("contract", .map [("enforced", .b true)])])) := by
  unfold addContractEntry at hok
  cases hc : getColumns model_yml with
  | error e => rw [hc] at hok; exact absurd hok (by simp [Bind.bind, Except.bind])
  | ok cols0 =>
    rw [hc] at hok
    simp only [Bind.bind, Except.bind] at hok
    cases hm : mapME (typeYmlCol catalog) cols0 with
    | error e => rw [hm] at hok; simp at hok
    | ok yml_cols =>
      rw [hm] at hok
      simp only [] at hok
      cases hn : mapME colNameLower yml_cols with
      | error e => rw [hn] at hok; simp at hok
      | ok names =>
        rw [hn] at hok
        simp only [pure, Except.pure] at hok
        injection hok with h
        exact ⟨cols0, yml_cols, names, rfl, hm, hn, h.symm⟩

theorem initLoop_changes_nil (manifest : List RNode) (boundary : List String)
    (project_name : String) :
    ∀ order : List String, (initLoop manifest boundary project_name order).changes = [] := by
  intro order
  induction order with
  | nil => rfl
  | cons uid rest ih =>
    unfold initLoop
    split
    · rfl
    · split
      · rfl
      · exact ih

theorem initLoop_cons_none {manifest : List RNode} {boundary : List String}
    {project_name uid : String} (rest : List String)
    (h : get_manifest_node manifest uid = none) :
    initLoop manifest boundary project_name (uid :: rest) =
      ⟨[], [], some ("Resource " ++ uid ++ " not found in manifest")⟩ := by
  conv_lhs => unfold initLoop
  rw [h]

theorem initLoop_cons_some {manifest : List RNode} {boundary : List String}
    {project_name uid : String} {r : RNode} (rest : List String)
    (h : get_manifest_node manifest uid = some r) :
    initLoop manifest boundary project_name (uid :: rest) =
      match (processResource manifest boundary project_name r).2 with
      | some e => ⟨(processResource manifest boundary project_name r).1, [], some e⟩
      | none =>
        ⟨(processResource manifest boundary project_name r).1 ++
            (initLoop manifest boundary project_name rest).ops,
          (initLoop manifest boundary project_name rest).changes,
          (initLoop manifest boundary project_name rest).err⟩ := by
  conv_lhs => unfold initLoop
  rw [h]

theorem initLoop_append (manifest : List RNode) (boundary : List String)
    (project_name : String) (l1 l2 : List String)
    (h : (initLoop manifest boundary project_name l1).err = none) :
    initLoop manifest boundary project_name (l1 ++ l2) =
      ⟨(initLoop manifest boundary project_name l1).ops ++
          (initLoop manifest boundary project_name l2).ops,
        (initLoop manifest boundary project_name l2).changes,
        (initLoop manifest boundary project_name l2).err⟩ := by
  induction l1 with
  | nil => simp [initLoop]
  | cons uid rest ih =>
    cases hg : get_manifest_node manifest uid with
    | none =>
      rw [initLoop_cons_none rest hg] at h
      simp at h
    | some r =>
      rw [initLoop_cons_some rest hg] at h
      cases hp : (processResource manifest boundary project_name r).2 with
      | some e =>
        rw [hp] at h
        simp at h
      | none =>
        rw [hp] at h
        have h' : (initLoop manifest boundary project_name rest).err = none := h
        show initLoop manifest boundary project_name (uid :: (rest ++ l2)) = _
        rw [initLoop_cons_some (rest ++ l2) hg, hp, ih h',
          initLoop_cons_some rest hg, hp]
        simp

end DbtMeshify

namespace DbtMeshify

/-! ## Claim theorems -/

/-- C1: Boundary filtering — every member of the boundary set produced by
`_get_subproject_boundary_models` starts with `model` and is owned by the
parent (source) project; and for the graph with edges stg→orders and
orders→customers and selection {orders}, the resulting interface set is
exactly {orders}. -/
theorem C1_boundary_filtering :
    (∀ (graph : List (String × String)) (resources : Finset String) (parent : String)
        (x : String), x ∈ get_subproject_boundary_models graph resources parent →
          pyStartsWith x "model" = true ∧ (splitChar '.' x)[1]? = some parent) ∧
    get_subproject_boundary_models
        [("model.parent.stg", "model.parent.orders"),
         ("model.parent.orders", "model.parent.customers")]
        {"model.parent.orders"} "parent" = {"model.parent.orders"} := by
  constructor
  · intro graph resources parent x hx
    simp only [get_subproject_boundary_models, Finset.mem_filter] at hx
    exact ⟨hx.2.1, hx.2.2⟩
  · decide

/-- C1 witness: the general filter property of `C1_boundary_filtering`
evaluated at the concrete graph and the member `model.parent.orders`. -/
theorem C1_boundary_filtering_witness :
    pyStartsWith "model.parent.orders" "model" = true ∧
    (splitChar '.' "model.parent.orders")[1]? = some "parent" :=
  C1_boundary_filtering.1
    [("model.parent.stg", "model.parent.orders"),
     ("model.parent.orders", "model.parent.customers")]
    {"model.parent.orders"} "parent" "model.parent.orders" (by decide)

/-- The claimed three-call starting document for C2: a version-less entry. -/
def versionDoc0 : List KV := [("models", .list [.map [("name", .s "m")]])]

/-- The result of the three-call sequence of C2. -/
def versionDoc3 : List KV :=
  [("models", .list [.map
    [("name", .s "m"), ("latest_version", .n 2),
     ("versions", .list [.map [("v", .n 1)], .map [("v", .n 2)], .map [("v", .n 3)]])]])]

/-- C2 (amended): version-append sequence — on an entry whose version sequence
is empty, `add_model_version_to_yml` appends `{v: 1}` and increments the stored
`latest_version` counter by one (so a version-less entry yields
`latest_version = 1`); on an entry with a non-empty sequence a non-prerelease
call appends `{v: latest+1}` and increments the counter, while a prerelease
call appends `{v: latest+1}` and leaves the counter unchanged.  Concretely,
three calls (plain, plain, prerelease) on a version-less entry yield
`versions = [{v:1},{v:2},{v:3}]` with `latest_version = 2`. -/
theorem C2_version_append :
    (∀ (m : String) (L : Int),
      addVersionEntry [("name", .s m), ("latest_version", .n L), ("versions", .list [])]
          false none =
        .ok [("name", .s m), ("latest_version", .n (L + 1)),
          ("versions", .list [.map [("v", .n 1)]])]) ∧
    (∀ (m : String) (L : Int) (w : YVal) (ws : List YVal),
      addVersionEntry [("name", .s m), ("latest_version", .n L),
          ("versions", .list (w :: ws))] false none =
        .ok [("name", .s m), ("latest_version", .n (L + 1)),
          ("versions", .list ((w :: ws) ++ [.map [("v", .n (L + 1))]]))]) ∧
    (∀ (m : String) (L : Int) (w : YVal) (ws : List YVal),
      addVersionEntry [("name", .s m), ("latest_version", .n L),
          ("versions", .list (w :: ws))] true none =
        .ok [("name", .s m), ("latest_version", .n L),
          ("versions", .list ((w :: ws) ++ [.map [("v", .n (L + 1))]]))]) ∧
    (do
      let d1 ← add_model_version_to_yml "m" versionDoc0 false none
      let d2 ← add_model_version_to_yml "m" d1 false none
      add_model_version_to_yml "m" d2 true none) = .ok versionDoc3 :=
  ⟨fun _ _ => rfl, fun _ _ _ _ => rfl, fun _ _ _ _ => rfl, rfl⟩

/-- C2 counterexample: the claim says appending a version to *any* entry with
an empty version sequence yields `latest_version = 1`; on an entry storing
`latest_version: 5` with no versions the code yields `latest_version = 6`. -/
theorem C2_version_append_counterexample :
    add_model_version_to_yml "m"
        [("models", .list [.map [("name", .s "m"), ("latest_version", .n 5),
          ("versions", .list [])]])] false none =
      .ok [("models", .list [.map [("name", .s "m"), ("latest_version", .n 6),
        ("versions", .list [.map [("v", .n 1)]])]])] ∧
    (6 : Int) ≠ 1 :=
  ⟨rfl, by decide⟩

/-- The C3 starting document: one entry with declared columns `[{name: id}]`. -/
def contractDoc : List KV :=
  [("models", .list [.map [("name", .s "mymodel"),
    ("columns", .list [.map [("name", .s "id")]])]])]

/-- The C3 observed columns: `{id: INTEGER, amount: NUMERIC}` in that order. -/
def contractCatalog : List (String × String) := [("id", "INTEGER"), ("amount", "NUMERIC")]

/-- The C3 stamped document: declared column order preserved, the missing
column appended in observation order with lower-cased type, contract enforced. -/
def contractStamped : List KV :=
  [("models", .list [.map
    [("name", .s "mymodel"),
     ("config", .map [("contract", .map [("enforced", .b true)])]),
     ("columns", .list
       [.map [("name", .s "id"), ("data_type", .s "integer")],
        .map [("name", .s "amount"), ("data_type", .s "numeric")]])]])]

/-- C3: contract-stamping on an entry with declared columns `[{name: id}]` and
observed columns `{id: INTEGER, amount: NUMERIC}` yields columns
`[{id, integer}, {amount, numeric}]` with the contract enforced, and stamping
the result again with the same inputs yields the identical document — no
duplicate column entries. -/
theorem C3_contract_stamping :
    add_model_contract_to_yml "mymodel" contractCatalog contractDoc = .ok contractStamped ∧
    add_model_contract_to_yml "mymodel" contractCatalog contractStamped =
      .ok contractStamped :=
  ⟨rfl, rfl⟩

/-- C4 (amended): canonical serialization — re-serializing an entry orders its
fields by the fixed canonical key order (fields outside the canonical list are
appended afterwards in patch order, as `extraPart`) and drops exactly the
fields whose resolved value is null; fields holding empty mappings or empty
sequences are retained.  Hence the result holds exactly the non-null fields of
the patch and no null-valued key. -/
theorem C4_canonical_serialization (patch : List KV) (h : (keysOf patch).Nodup) :
    process_model_yml patch = canonPart patch ++ extraPart patch ∧
    (∀ k v, v.isNull = false → ((k, v) ∈ process_model_yml patch ↔ (k, v) ∈ patch)) ∧
    (∀ k, (k, YVal.null) ∉ process_model_yml patch) := by
  refine ⟨process_model_yml_spec patch h, fun k v hv => mem_process_model_yml h hv, ?_⟩
  intro k hm
  have := (List.mem_filter.mp hm).2
  simp [YVal.isNull] at this

/-- C4 witness: the characterization of `C4_canonical_serialization` evaluated
at a concrete patch with unique keys. -/
theorem C4_canonical_serialization_witness :
    process_model_yml
        [("description", .s "d"), ("name", .s "m"), ("tags", .list [.s "x"]), ("meta", .null)] =
      canonPart [("description", .s "d"), ("name", .s "m"), ("tags", .list [.s "x"]),
          ("meta", .null)] ++
        extraPart [("description", .s "d"), ("name", .s "m"), ("tags", .list [.s "x"]),
          ("meta", .null)] ∧
    (("name", YVal.s "m") ∈ process_model_yml
        [("description", .s "d"), ("name", .s "m"), ("tags", .list [.s "x"]), ("meta", .null)] ↔
      ("name", YVal.s "m") ∈
        ([("description", .s "d"), ("name", .s "m"), ("tags", .list [.s "x"]),
          ("meta", .null)] : List KV)) :=
  ⟨(C4_canonical_serialization _ (by decide)).1,
   (C4_canonical_serialization _ (by decide)).2.1 "name" (.s "m") rfl⟩

/-- C4 counterexample: the claim says fields resolving to an empty mapping or
empty sequence are dropped on re-serialization; `process_model_yml` keeps
them — only `None`-valued fields are removed. -/
theorem C4_canonical_serialization_counterexample :
    process_model_yml [("name", .s "m"), ("columns", .list []), ("meta", .map [])] =
      [("name", .s "m"), ("meta", .map []), ("columns", .list [])] :=
  rfl

end DbtMeshify

namespace DbtMeshify

/-- C5 (amended): the `Change` data model exists (`change.py`), but the
relocation orchestrator performs its mutations directly — no branch of
`DbtSubprojectCreator.initialize` constructs a `Change` record, so the change
set recorded by a run is empty for every configuration. -/
theorem C5_change_ledger (cfg : SubprojectConfig) : (initRun cfg).changes = [] := by
  unfold initRun
  split
  · exact initLoop_changes_nil _ _ _ _
  · exact initLoop_changes_nil _ _ _ _

/-- A plain model resource used by concrete orchestrator runs. -/
def orderNode : RNode :=
  { unique_id := "model.proj.orders", name := "orders", resource_type := "model",
    original_file_path := "models/orders.sql", depends_on := [] }

/-- A run that relocates a single model. -/
def cfgSingleModel : SubprojectConfig :=
  { manifest := [orderNode], resource_order := ["model.proj.orders"],
    boundary := [], project_name := "sub" }

/-- C5 counterexample: a run that performs document and file mutations
(nonempty operation trace) records zero `Change` records, contradicting the
claim that every mutating transition records exactly one. -/
theorem C5_change_ledger_counterexample :
    (initRun cfgSingleModel).ops =
      [.moveFile "models/orders.sql", .moveYmlEntry "model.proj.orders",
       .writeProjectFile, .copyPackagesYml] ∧
    (initRun cfgSingleModel).ops ≠ [] ∧
    (initRun cfgSingleModel).changes = [] :=
  ⟨rfl, by decide, rfl⟩

/-- C6 (amended): test skipping — a generic test (four-segment identifier) is
never independently relocated: its processing step performs no action at all;
a non-generic test (identifier without four segments, hence never a boundary
model) is relocated as an independent unit: its source file and its yml entry
are moved. -/
theorem C6_test_skipping (manifest : List RNode) (boundary : List String)
    (project_name : String) (r : RNode) (htest : r.resource_type = "test") :
    ((splitChar '.' r.unique_id).length = 4 →
      processResource manifest boundary project_name r = ([], none)) ∧
    ((splitChar '.' r.unique_id).length ≠ 4 → r.unique_id ∉ boundary →
      processResource manifest boundary project_name r =
        ([Event.moveFile r.original_file_path, Event.moveYmlEntry r.unique_id], none)) := by
  constructor
  · intro h4
    simp [processResource, htest, h4]
  · intro h4 hb
    simp [processResource, htest, h4, hb]

/-- A generic test: four-segment identifier. -/
def genericTest : RNode :=
  { unique_id := "test.proj.not_null_orders_id.abc123", name := "not_null_orders_id",
    resource_type := "test", original_file_path := "models/schema.yml",
    depends_on := ["model.proj.orders"] }

/-- A non-generic (singular) test: three-segment identifier. -/
def singularTest : RNode :=
  { unique_id := "test.proj.my_assert", name := "my_assert", resource_type := "test",
    original_file_path := "tests/my_assert.sql", depends_on := ["model.proj.orders"] }

/-- C6 witness: `C6_test_skipping` evaluated at a concrete generic test (which
is skipped) and at a concrete singular test (which is moved). -/
theorem C6_test_skipping_witness :
    processResource [] [] "sub" genericTest = ([], none) ∧
    processResource [] [] "sub" singularTest =
      ([.moveFile "tests/my_assert.sql", .moveYmlEntry "test.proj.my_assert"], none) :=
  ⟨(C6_test_skipping [] [] "sub" genericTest rfl).1 (by decide),
   (C6_test_skipping [] [] "sub" singularTest rfl).2 (by decide) (by decide)⟩

/-- C6 counterexample: the claim says non-generic tests owned by a relocated
resource are skipped as independent relocation units; the orchestrator instead
moves a singular test's source file and yml entry. -/
theorem C6_test_skipping_counterexample :
    processResource [] [] "sub" singularTest =
      ([.moveFile "tests/my_assert.sql", .moveYmlEntry "test.proj.my_assert"], none) ∧
    processResource [] [] "sub" singularTest ≠ ([], none) :=
  ⟨rfl, by decide⟩

/-- A model whose current source file already carries the `_v1` suffix. -/
def sharedModelNode : ModelNode :=
  { name := "shared_model", latest_version := some 1, language := "sql",
    original_file_path := "models/shared_model_v1.sql", raw_code := "select 1" }

/-- C7: the claim (and the source's own comment) say the rename to the
version-suffixed name is skipped when the file is already suffixed that way;
the code tests `model_path.root` — which is `""` for every relative path, so
the guard never ends with `_v{n}.{lang}` and the rename is always issued:
here the file is already `_v1`-suffixed yet a rename operation is still
emitted. -/
theorem C7_version_file_rename :
    pyEndsWith "shared_model_v1.sql" "_v1.sql" = true ∧
    pathRoot "models/shared_model_v1.sql" = "" ∧
    add_model_version_file_ops sharedModelNode none =
      [.write "models/shared_model_v2.sql" "select 1",
       .rename "models/shared_model_v1.sql" "models/shared_model_v1.sql"] :=
  ⟨rfl, rfl, rfl⟩

/-- C8 (amended): contract-stamping frame — stamping changes only the entry's
`columns` list and its `config` block; every other non-null field keeps exactly
its value.  The `config` block, however, is *replaced wholesale* by
`{contract: {enforced: true}}`: keys previously present inside it (such as a
`group` key) are dropped. -/
theorem C8_contract_frame (model_yml : List KV) (catalog : List (String × String))
    (r : List KV) (hnd : (keysOf model_yml).Nodup)
    (hok : addContractEntry model_yml catalog = .ok r) :
    (∀ k v, k ≠ "columns" → k ≠ "config" → v.isNull = false →
      ((k, v) ∈ r ↔ (k, v) ∈ model_yml)) ∧
    lookupK r "config" = some (.map [("contract", .map [("enforced", .b true)])]) := by
  obtain ⟨cols0, yml_cols, names, _, _, _, hr⟩ := addContractEntry_ok_shape _ _ _ hok
  subst hr
  have hnd1 : (keysOf (updKey model_yml "columns"
      (YVal.list (appendMissingCols catalog names yml_cols)))).Nodup :=
    keysOf_updKey_nodup _ hnd
  have hnd2 : (keysOf (updKey (updKey model_yml "columns"
      (YVal.list (appendMissingCols catalog names yml_cols))) "config"
      (YVal.map [("contract", .map [("enforced", .b true)])]))).Nodup :=
    keysOf_updKey_nodup _ hnd1
  constructor
  · intro k v hk1 hk2 hv
    rw [mem_process_model_yml hnd2 hv, mem_updKey_of_ne hk2, mem_updKey_of_ne hk1]
  · exact lookupK_process_model_yml _ hnd2 "config" rfl
      (mem_of_lookupK_eq_some (lookupK_updKey_self _))

/-- An entry that carries an `access` field and a `group` key in its config. -/
def frameEntry : List KV :=
  [("name", .s "m"), ("access", .s "public"), ("config", .map [("group", .s "g")])]

/-- `addContractEntry frameEntry []` evaluates to this entry. -/
def frameStamped : List KV :=
  [("name", .s "m"), ("access", .s "public"),
   ("config", .map [("contract", .map [("enforced", .b true)])]), ("columns", .list [])]

/-- C8 witness: `C8_contract_frame` evaluated at a concrete entry — the
`access` field survives stamping and the config is the enforced contract. -/
theorem C8_contract_frame_witness :
    (("access", YVal.s "public") ∈ frameStamped ↔
      ("access", YVal.s "public") ∈ frameEntry) ∧
    lookupK frameStamped "config" =
      some (.map [("contract", .map [("enforced", .b true)])]) :=
  ⟨(C8_contract_frame frameEntry [] frameStamped (by decide) rfl).1 "access" (.s "public")
      (by decide) (by decide) rfl,
   (C8_contract_frame frameEntry [] frameStamped (by decide) rfl).2⟩

/-- A document whose entry already holds `config: {group: finance}`. -/
def groupedDoc : List KV :=
  [("models", .list [.map [("name", .s "m"), ("config", .map [("group", .s "finance")])]])]

/-- C8 counterexample: the claim says keys already present inside the entry's
config block (such as a previously-set `group` key) are left unchanged;
stamping replaces the whole config, and the `group` key is gone from the
result. -/
theorem C8_contract_frame_counterexample :
    add_model_contract_to_yml "m" [("id", "INTEGER")] groupedDoc =
      .ok [("models", .list [.map [("name", .s "m"),
        ("config", .map [("contract", .map [("enforced", .b true)])]),
        ("columns", .list [.map [("name", .s "id"), ("data_type", .s "integer")]])]])] :=
  rfl

/-- C9: fatal unresolved identifier — when the first unresolvable identifier in
the iteration order is reached, the run stops with an error naming that
identifier (`KeyError`, the spec's `ResourceNotFoundError`), and the operation
trace is exactly the trace of the resources processed before it: nothing after
the failed lookup is mutated, and the final project files are not written. -/
theorem C9_fatal_unresolved (cfg : SubprojectConfig) (pre rest : List String) (bad : String)
    (horder : cfg.resource_order = pre ++ bad :: rest)
    (hbad : get_manifest_node cfg.manifest bad = none)
    (hpre : (initLoop cfg.manifest cfg.boundary cfg.project_name pre).err = none) :
    (initRun cfg).err = some ("Resource " ++ bad ++ " not found in manifest") ∧
    (initRun cfg).ops = (initLoop cfg.manifest cfg.boundary cfg.project_name pre).ops := by
  have hfull : initLoop cfg.manifest cfg.boundary cfg.project_name cfg.resource_order =
      ⟨(initLoop cfg.manifest cfg.boundary cfg.project_name pre).ops ++ [], [],
        some ("Resource " ++ bad ++ " not found in manifest")⟩ := by
    rw [horder, initLoop_append _ _ _ pre (bad :: rest) hpre, initLoop_cons_none rest hbad]
  unfold initRun
  rw [hfull]
  simp

/-- A run whose second identifier resolves to nothing. -/
def cfgUnresolved : SubprojectConfig :=
  { manifest := [orderNode, singularTest],
    resource_order := ["model.proj.orders", "model.proj.gone", "test.proj.my_assert"],
    boundary := [], project_name := "sub" }

/-- C9 witness: `C9_fatal_unresolved` evaluated at a concrete run — the error
names the offending identifier and the trace stops at the resources processed
before it. -/
theorem C9_fatal_unresolved_witness :
    (initRun cfgUnresolved).err = some "Resource model.proj.gone not found in manifest" ∧
    (initRun cfgUnresolved).ops =
      (initLoop cfgUnresolved.manifest cfgUnresolved.boundary cfgUnresolved.project_name
        ["model.proj.orders"]).ops :=
  C9_fatal_unresolved cfgUnresolved ["model.proj.orders"] ["test.proj.my_assert"]
    "model.proj.gone" rfl rfl rfl

/-- C10: contract stamping is partial in the observed-columns lookup — if any
declared column's name is not a key of the catalog mapping (compared exactly,
case-sensitively), the operation raises (`AttributeError`) instead of
returning a document. -/
theorem C10_contract_missing_column (model_name : String)
    (catalog : List (String × String)) (full : List KV)
    (models : List (String × List KV)) (cols : List YVal)
    (fields : List KV) (nm : String)
    (hm : modelsDict full = .ok models)
    (hcols : getColumns (getOrSkeleton models model_name (contractSkeleton model_name)) =
      .ok cols)
    (hcol : YVal.map fields ∈ cols)
    (hname : lookupK fields "name" = some (.s nm))
    (hmiss : lookupK catalog nm = none) :
    ∃ e, add_model_contract_to_yml model_name catalog full = .error e := by
  have hfail : typeYmlCol catalog (.map fields) = .error
      ("AttributeError: NoneType object has no attribute type (column " ++ nm
        ++ " missing from catalog)") := by
    simp [typeYmlCol, hname, hmiss]
  obtain ⟨e', he'⟩ := mapME_error_of_mem hcol hfail
  refine ⟨e', ?_⟩
  have hentry : addContractEntry
      (getOrSkeleton models model_name (contractSkeleton model_name)) catalog =
      .error e' := by
    unfold addContractEntry
    rw [hcols]
    show (mapME (typeYmlCol catalog) cols >>= _) = Except.error e'
    rw [he']
    rfl
  unfold add_model_contract_to_yml
  rw [hm]
  show (addContractEntry (getOrSkeleton models model_name (contractSkeleton model_name))
      catalog >>= _) = Except.error e'
  rw [hentry]
  rfl

/-- A document declaring a column named `ID` (upper case). -/
def missingColDoc : List KV :=
  [("models", .list [.map [("name", .s "m"),
    ("columns", .list [.map [("name", .s "ID")]])]])]

/-- C10 witness: the declared column `ID` fails the case-sensitive lookup
against a catalog whose key is `id`, so stamping raises — even though the
case-insensitive append check would consider the two names equal. -/
theorem C10_contract_missing_column_witness :
    ∃ e, add_model_contract_to_yml "m" [("id", "INTEGER")] missingColDoc = .error e :=
  C10_contract_missing_column "m" [("id", "INTEGER")] missingColDoc
    [("m", [("name", .s "m"), ("columns", .list [.map [("name", .s "ID")]])])]
    [.map [("name", .s "ID")]] [("name", .s "ID")] "ID"
    rfl rfl (List.mem_singleton_self _) rfl rfl

end DbtMeshify
